import Mathlib

/-!
# Verification of the fears_md evolutionary simulation core

Shallow embedding of the core of `fears_md/population.py` (class `Population`)
and the ramp-curve helper of `fears_md/experiment.py` (class `Experiment`).
Counts are embedded as lists of integers (numpy integer arrays), drug doses and
rates as rationals (floating point modelled exactly over `ℚ`), and stochastic
draws (numpy Poisson / multinomial sampling) as explicit realized-draw inputs
together with a support predicate describing which realizations the sampler can
actually produce.
-/

namespace FearsMd

/-! ## Genotype space and mutation matrix (population.py) -/

/-- `Population.hammingDistance(s1, s2)` applied to `int_to_binary` strings:
the two genotypes are rendered as bit strings zero-filled to `pad` digits and
the differing positions are counted.  `pad` is the number of digits
(`int(math.log(n_genotype, 2))` in `int_to_binary`). -/
def hammingDistance (pad m n : ℕ) : ℕ :=
  ((List.range pad).filter (fun i => m.testBit i != n.testBit i)).length

/-- Entry `[m, n]` of `trans_mat` in `Population.random_mutations` after the
line `trans_mat[trans_mat > 1] = 0`: the Hamming distance if it is at most 1,
otherwise 0. -/
def transRaw (pad m n : ℕ) : ℚ :=
  if hammingDistance pad m n > 1 then 0 else (hammingDistance pad m n : ℚ)

/-- `trans_mat.sum(axis=1)` of `Population.random_mutations`: the sum of row
`m` of the raw 0/1 matrix. -/
def rowSumRaw (pad N m : ℕ) : ℚ := ∑ k ∈ Finset.range N, transRaw pad m k

/-- Entry `[m, n]` of the matrix returned by `Population.random_mutations(N)`.
The final line `trans_mat / trans_mat.sum(axis=1)` divides through numpy
broadcasting: the shape-`(N,)` vector of row sums aligns with the last axis,
so entry `[m, n]` is divided by the row sum of row `n` (the column index).
The bit-string pad is `int(math.log(N, 2))` from `int_to_binary`. -/
def random_mutations (N m n : ℕ) : ℚ :=
  transRaw (Nat.log2 N) m n / rowSumRaw (Nat.log2 N) N n

/-! ## Configuration bundle (PopParams attributes used by the core loop) -/

/-- The string `'pharmacodynamic'` selecting the alternate death model. -/
def pharmacodynamicTag : String := "pharmacodynamic"

/-- The attributes of `PopParams` consumed by `Population.abm`,
`Population.passage_cells` and `Population.check_stop_cond`. -/
structure AbmCfg where
  death_model : Option String
  death_rate : ℚ
  mut_rate : ℚ
  timestep_scale : ℚ
  n_allele : ℕ
  passage : Bool
  passage_time : ℚ
  dilution : ℚ
  constant_pop : Bool
  max_cells : ℚ

/-- `np.mod` on floats: `x - floor(x / y) * y`. -/
def floatMod (x y : ℚ) : ℚ := x - ⌊x / y⌋ * y

/-- `Population.passage_cells(mm, counts)`: when passaging is enabled, the
timestep (in hours, `mm * timestep_scale`) is a multiple of `passage_time`
and `mm` is not 0, every count is divided by the dilution factor and
truncated by `int(c)` (floor, all counts being non-negative); otherwise the
counts pass through unchanged.  The line `counts[counts < 1] == 0` of the
source is a bare comparison with no effect and is not modelled. -/
def passage_cells (cfg : AbmCfg) (mm : ℕ) (counts : List ℕ) : List ℕ :=
  if floatMod ((mm : ℚ) * cfg.timestep_scale) cfg.passage_time = 0
      ∧ mm ≠ 0 ∧ cfg.passage = true then
    counts.map (fun (c : ℕ) => ⌊(c : ℚ) / cfg.dilution⌋₊)
  else counts

/-! ## The stochastic update step `Population.abm`

The numpy random draws are passed in explicitly as lists of realized values:
`deathDraws` are the `np.random.poisson(counts*death_rate)` outcomes,
`growthDraws` the `np.random.poisson(counts_t*fit_land)` outcomes (the
`delta_cells` magnitudes under the pharmacodynamic model), `mutDraws` the
per-genotype mutation-count outcomes, and `mutDest g` the
`np.bincount(mutations, minlength=n_genotype)` vector of realized mutation
destinations for source genotype `g`.  The fitness vector
`fitness.gen_abm_fl_md(self, mm, counts)` lives outside the core
(`fears_md.utils.fitness`) and is passed in as the opaque input `fitLandRaw`. -/

structure AbmDraws where
  deathDraws : List ℕ
  growthDraws : List ℕ
  mutDraws : List ℕ
  mutDest : List (List ℕ)

/-- `delta_cells` of the pharmacodynamic branch of `Population.abm`: the
Poisson magnitude, sign-flipped where the (timestep-scaled) fitness is
negative. -/
def deltaCells (growthDraws : List ℕ) (fit_land : List ℚ) : List ℤ :=
  List.zipWith (fun (k : ℕ) (f : ℚ) => if f < 0 then -(k : ℤ) else (k : ℤ))
    growthDraws fit_land

/-- `counts_t` of `Population.abm` just before the negative-count clamp:
under the pharmacodynamic model the passaged counts plus `dead_cells`
(the negative part of `delta_cells` plus the background-turnover deaths),
under the default model the passaged counts minus the background-turnover
death draws. -/
def abmCountsAfterDeath (cfg : AbmCfg) (fit_land : List ℚ) (counts : List ℕ)
    (d : AbmDraws) : List ℤ :=
  if cfg.death_model = some pharmacodynamicTag then
    let delta := deltaCells d.growthDraws fit_land
    let dead := List.zipWith (fun (dc : ℤ) (t : ℕ) => min dc 0 - (t : ℤ))
      delta d.deathDraws
    List.zipWith (fun (c : ℕ) (x : ℤ) => (c : ℤ) + x) counts dead
  else
    List.zipWith (fun (c : ℕ) (t : ℕ) => (c : ℤ) - (t : ℤ)) counts d.deathDraws

/-- `daughter_counts` of `Population.abm` before the mutation loop: under the
pharmacodynamic model the positive part of `delta_cells`, under the default
model the Poisson birth draws. -/
def abmDaughterCounts (cfg : AbmCfg) (fit_land : List ℚ) (d : AbmDraws) :
    List ℤ :=
  if cfg.death_model = some pharmacodynamicTag then
    (deltaCells d.growthDraws fit_land).map (fun (x : ℤ) => max x 0)
  else
    d.growthDraws.map (fun (k : ℕ) => (k : ℤ))

/-- The constant-population normalization at the end of `Population.abm`:
`scale = max_cells / np.sum(counts_t)`, then `np.ceil(counts_t * scale)`. -/
def constantPopNormalize (max_cells : ℚ) (ct : List ℤ) : List ℤ :=
  let s := (ct.map (fun (c : ℤ) => (c : ℚ))).sum
  ct.map (fun (c : ℤ) => ⌈(c : ℚ) * (max_cells / s)⌉)

/-- `Population.abm` up to (but not including) the constant-population
normalization: passage, death-model branch, negative-count clamp, mutation
loop (each genotype's mutating daughters are subtracted from its pool and the
realized destination vectors accumulated into `counts_t`), and the final
addition of the remaining daughter counts. -/
def abmPreNormalize (cfg : AbmCfg) (mm nGenotype : ℕ) (fitLandRaw : List ℚ)
    (counts0 : List ℕ) (d : AbmDraws) : List ℤ :=
  let fit_land := fitLandRaw.map (fun f => f * cfg.timestep_scale)
  let counts := passage_cells cfg mm counts0
  let counts_t := abmCountsAfterDeath cfg fit_land counts d
  let counts_t := counts_t.map (fun c => max c 0)
  let daughter := List.zipWith (fun (a : ℤ) (m : ℕ) => a - (m : ℤ))
    (abmDaughterCounts cfg fit_land d) d.mutDraws
  let counts_t := d.mutDest.foldl
    (fun acc dest => List.zipWith (· + ·) acc (dest.map (fun (k : ℕ) => (k : ℤ))))
    counts_t
  List.zipWith (· + ·) counts_t daughter

/-- `Population.abm(mm, n_genotype, P, counts)`: the single-timestep
birth–death–mutation update, returning the next count vector. -/
def abm (cfg : AbmCfg) (mm nGenotype : ℕ) (fitLandRaw : List ℚ)
    (counts0 : List ℕ) (d : AbmDraws) : List ℤ :=
  let ct := abmPreNormalize cfg mm nGenotype fitLandRaw counts0 d
  if cfg.constant_pop then constantPopNormalize cfg.max_cells ct else ct

/-! ### Support of the random draws

`np.random.poisson(lam)` requires `lam ≥ 0` and returns 0 with certainty when
`lam = 0`; every natural number is in the support when `lam > 0`.
`np.random.choice(n, size=k, p=P[:, g])` can only produce destinations `j`
with `P[j, g] > 0`, and its bincount sums to `k`.  The checker certifies that
a given realization of draws is one the samplers inside `Population.abm` can
actually produce. -/

def poissonOk (lam : ℚ) (k : ℕ) : Bool :=
  decide (0 ≤ lam ∧ (lam = 0 → k = 0))

def poissonListOk : List ℚ → List ℕ → Bool
  | [], [] => true
  | lam :: ls, k :: ks => poissonOk lam k && poissonListOk ls ks
  | _, _ => false

/-- Support check for the realized destination bincount of source genotype
`g`: right length, total equal to the mutation draw, and only destinations of
positive probability in column `g` of the mutation matrix. -/
def destOk (P : ℕ → ℕ → ℚ) (nGenotype g k : ℕ) (dest : List ℕ) : Bool :=
  dest.length == nGenotype && dest.sum == k &&
    (List.range nGenotype).all
      (fun j => dest.getD j 0 == 0 || decide (0 < P j g))

/-- Full support check for one invocation of `Population.abm`: shapes agree
with `n_genotype` and every realized draw is producible by the corresponding
sampler, with the Poisson rates recomputed exactly as the code computes them
(a negative rate would make `np.random.poisson` raise, hence is rejected). -/
def abmDrawsOk (cfg : AbmCfg) (mm nGenotype : ℕ) (fitLandRaw : List ℚ)
    (counts0 : List ℕ) (P : ℕ → ℕ → ℚ) (d : AbmDraws) : Bool :=
  let fit_land := fitLandRaw.map (fun f => f * cfg.timestep_scale)
  let counts := passage_cells cfg mm counts0
  let deathRates := counts.map
    (fun (c : ℕ) => (c : ℚ) * (cfg.death_rate * cfg.timestep_scale))
  let growthRates :=
    if cfg.death_model = some pharmacodynamicTag then
      List.zipWith (fun (c : ℕ) (f : ℚ) => (c : ℚ) * |f|) counts fit_land
    else
      List.zipWith (fun (ct : ℤ) (f : ℚ) => (ct : ℚ) * f)
        (abmCountsAfterDeath cfg fit_land counts d) fit_land
  let mutRates := (abmDaughterCounts cfg fit_land d).map
    (fun (a : ℤ) => (a : ℚ) * (cfg.mut_rate * cfg.timestep_scale) * (cfg.n_allele : ℚ))
  counts0.length == nGenotype && fitLandRaw.length == nGenotype &&
    poissonListOk deathRates d.deathDraws &&
    poissonListOk growthRates d.growthDraws &&
    poissonListOk mutRates d.mutDraws &&
    d.mutDest.length == nGenotype &&
    (List.range nGenotype).all
      (fun g => destOk P nGenotype g (d.mutDraws.getD g 0) (d.mutDest.getD g []))

/-! ## Stop condition and simulation driver (`Population.check_stop_cond`,
`Population.run_abm`) -/

/-- The message of the `Warning` raised by `Population.check_stop_cond` when
the horizon is exceeded. -/
def stopCondWarning : String :=
  "Stop condition not reached. Increase n_timestep or adjust model parameters."

/-- `np.argmax`: index of the first occurrence of the maximum. -/
def argmaxGo [LinearOrder α] : List α → α → ℕ → ℕ → ℕ
  | [], _, bestIdx, _ => bestIdx
  | x :: xs, best, bestIdx, idx =>
    if best < x then argmaxGo xs x idx (idx + 1)
    else argmaxGo xs best bestIdx (idx + 1)

def argmax [LinearOrder α] : List α → ℕ
  | [] => 0
  | x :: xs => argmaxGo xs x 0 1

/-- `Population.check_stop_cond(counts, mm)`.  The fittest genotype is the
argmax of `self.gen_fit_land(self.max_dose)` (computed by
`fears_md.utils.fitness`, outside the core), passed in as `finalLandscape`.
The code computes `stop_cond`, but then `raise Warning(...)` whenever
`mm >= self.n_timestep` — the raise aborts the caller, so the function
returns the stop flag only below the horizon. -/
def check_stop_cond (finalLandscape : List ℚ) (n_timestep : ℕ)
    (counts : List ℤ) (mm : ℕ) : Except String Bool :=
  if n_timestep ≤ mm then Except.error stopCondWarning
  else Except.ok (decide (argmax finalLandscape = argmax counts))

/-- The loop body of the stop-condition branch of `Population.run_abm`:
`counts_t = abm(mm, ...); append; mm += 1; stop = check_stop_cond(counts_t,
mm)`, a raised `Warning` propagating to the caller.  The `step` argument is
one invocation of `abm` at the given timestep (with that timestep's fitness
landscape and fresh draws).  `fuel` only guarantees termination: the loop
itself always raises once `mm` reaches `n_timestep`, so with the fuel
`n_timestep + 1` supplied by `run_abm_stop` the fuel-exhaustion branch is
unreachable (it returns the same raised `Warning`). -/
def runStopGo (step : ℕ → List ℤ → List ℤ) (finalLandscape : List ℚ)
    (n_timestep : ℕ) : ℕ → ℕ → List (List ℤ) →
    Except String (List (List ℤ) × ℕ)
  | 0, _, _ => Except.error stopCondWarning
  | fuel + 1, mm, traj =>
    let counts_t := step mm (traj.getD mm [])
    let traj' := traj ++ [counts_t]
    match check_stop_cond finalLandscape n_timestep counts_t (mm + 1) with
    | Except.error e => Except.error e
    | Except.ok true => Except.ok (traj', mm + 1)
    | Except.ok false => runStopGo step finalLandscape n_timestep fuel (mm + 1) traj'

/-- The stop-condition branch of `Population.run_abm`: iterate the update
step until fixation, a raised `Warning` (horizon exceeded) propagating to the
caller as an `Except.error` with no trajectory. -/
def run_abm_stop (step : ℕ → List ℤ → List ℤ) (finalLandscape : List ℚ)
    (n_timestep : ℕ) (init_counts : List ℤ) :
    Except String (List (List ℤ) × ℕ) :=
  runStopGo step finalLandscape n_timestep (n_timestep + 1) 0 [init_counts]

/-- The fixed-horizon branch of `Population.run_abm`:
`while mm < n_timestep - 1: counts[mm+1] = abm(mm, ..., counts[mm]); mm += 1`.
The preallocated rows written by the loop are modelled by appending; the fuel
is the exact iteration count `n_timestep - 1` of the while loop. -/
def runFixedGo (step : ℕ → List ℤ → List ℤ) :
    ℕ → ℕ → List (List ℤ) → List (List ℤ) × ℕ
  | 0, mm, traj => (traj, mm)
  | fuel + 1, mm, traj =>
    runFixedGo step fuel (mm + 1) (traj ++ [step mm (traj.getD mm [])])

def run_abm_fixed (step : ℕ → List ℤ → List ℤ) (init_counts : List ℤ)
    (n_timestep : ℕ) : List (List ℤ) × ℕ :=
  runFixedGo step (n_timestep - 1) 0 [init_counts]

/-- The mathematical trajectory recurrence: row 0 is the initial count
vector and row `k+1` is the update step applied to row `k`. -/
def trajFun (step : ℕ → List ℤ → List ℤ) (init_counts : List ℤ) : ℕ → List ℤ
  | 0 => init_counts
  | k + 1 => step k (trajFun step init_counts k)

/-! ## Population initialization (`Population.initialize_population`) -/

/-- The message of the `Warning` raised on a genotype/allele mismatch. -/
def mismatchWarning : String := "Genotype/allele number mismatch"

/-- The genotype/allele consistency check of
`Population.initialize_population`: `n_allele` defaults to
`int(np.log2(n_genotype))`, and a `Warning` is raised when
`int(n_allele) != int(np.log2(n_genotype))`.  `int(np.log2(g))` is the floor
of the base-2 logarithm, `Nat.log2 g`. -/
def init_population_check (n_allele : Option ℕ) (n_genotype : ℕ) :
    Except String ℕ :=
  let a := match n_allele with
    | none => Nat.log2 n_genotype
    | some a => a
  if a ≠ Nat.log2 n_genotype then Except.error mismatchWarning
  else Except.ok a

/-- The constant-population branch at the end of
`Population.initialize_population`: when `constant_pop` is set,
`init_counts` is rescaled to total `max_cells`, floored, and
`use_carrying_cap` is forced to `False`; otherwise both pass through. -/
def init_constant_pop (init_counts : List ℚ) (max_cells : ℚ)
    (use_carrying_cap constant_pop : Bool) : List ℚ × Bool :=
  if constant_pop then
    ((init_counts.map (fun c => c * max_cells / init_counts.sum)).map
        (fun c => ((⌊c⌋ : ℤ) : ℚ)),
      false)
  else (init_counts, use_carrying_cap)

/-! ## The ramp experiment drug curve (`Experiment.set_ramp_ud`) -/

/-- One entry of the `set_ramp_ud` loop body: the value written to
`drug_curve[t]` given the previous entry `prev = drug_curve[t-1]`, with
segment boundaries `times = [t1 - buffer, t1 + buffer, t2 - buffer,
t2 + buffer]` and `slope = (second_dose - first_dose) / ramp`. -/
def rampStep (first second third slope a b c d : ℚ) (prev : ℚ) (t : ℕ) : ℚ :=
  if (t : ℚ) < a then first
  else if (t : ℚ) < b then prev + slope
  else if (t : ℚ) < c then second
  else if (t : ℚ) < d ∧ prev + slope < third then prev + slope
  else third

/-- `drug_curve[t]` as computed by the loop of `Experiment.set_ramp_ud`.
At `t = 0` the loop reads `drug_curve[-1]`, the (still zero) last entry of
the preallocated array, so the previous value starts at 0. -/
def rampVal (first second third ramp t1 t2 : ℚ) : ℕ → ℚ
  | 0 => rampStep first second third ((second - first) / ramp)
      (t1 - ramp / 2) (t1 + ramp / 2) (t2 - ramp / 2) (t2 + ramp / 2) 0 0
  | t + 1 => rampStep first second third ((second - first) / ramp)
      (t1 - ramp / 2) (t1 + ramp / 2) (t2 - ramp / 2) (t2 + ramp / 2)
      (rampVal first second third ramp t1 t2 t) (t + 1)

/-- `Experiment.set_ramp_ud(p)`: the length-`n_timestep` drug curve. -/
def set_ramp_ud (n_timestep : ℕ) (first second third ramp t1 t2 : ℚ) :
    List ℚ :=
  (List.range n_timestep).map (rampVal first second third ramp t1 t2)

/-- Modelled from the spec: the three-segment ramp-up/ramp-down profile the
spec describes for the ramp experiment — hold at the first dose, linear ramp
up to the second dose across the first transition window, hold at the second
dose, linear ramp down to the third dose across the second transition
window, hold at the third dose.  Used only to compare against the curve the
code actually produces. -/
def rampProfileSpec (n_timestep : ℕ) (first second third ramp t1 t2 : ℚ) :
    List ℚ :=
  let a := t1 - ramp / 2
  let b := t1 + ramp / 2
  let c := t2 - ramp / 2
  let d := t2 + ramp / 2
  (List.range n_timestep).map (fun t =>
    if (t : ℚ) < a then first
    else if (t : ℚ) < b then first + ((t : ℚ) - a) * ((second - first) / ramp)
    else if (t : ℚ) < c then second
    else if (t : ℚ) < d then second + ((t : ℚ) - c) * ((third - second) / ramp)
    else third)

/-! ## Concrete instances used by counterexamples and witnesses -/

/-- A 1-allele / 2-genotype configuration with the default death model and
the default rates (`death_rate = 0.1`, `mut_rate = 1e-9`,
`timestep_scale = 1`), passaging and constant-population mode off. -/
def cfgTwo : AbmCfg where
  death_model := none
  death_rate := 1 / 10
  mut_rate := 1 / 10 ^ 9
  timestep_scale := 1
  n_allele := 1
  passage := false
  passage_time := 24
  dilution := 40
  constant_pop := false
  max_cells := 10 ^ 9

/-- A realized draw set for `cfgTwo` on counts `[10, 0]` in which genotype
0's mutation draw (3) exceeds its daughter draw (1): 9 of 10 cells die of
background turnover, 1 daughter is born, and the Poisson mutation draw comes
out at 3, all of which the samplers can produce at positive rates. -/
def drawsNeg : AbmDraws where
  deathDraws := [9, 0]
  growthDraws := [1, 0]
  mutDraws := [3, 0]
  mutDest := [[0, 3], [0, 0]]

/-- A realized draw set for `cfgTwo` on counts `[3, 0]` in which every
mutation draw is at most the corresponding daughter draw. -/
def drawsTame : AbmDraws where
  deathDraws := [1, 0]
  growthDraws := [2, 0]
  mutDraws := [1, 0]
  mutDest := [[0, 1], [0, 0]]

/-- A 2-allele / 4-genotype constant-population configuration with
`max_cells = 5`. -/
def cfgConstPop : AbmCfg where
  death_model := none
  death_rate := 1 / 10
  mut_rate := 1 / 10 ^ 9
  timestep_scale := 1
  n_allele := 2
  passage := false
  passage_time := 24
  dilution := 40
  constant_pop := true
  max_cells := 5

/-- The all-zero realized draw set on four genotypes (every Poisson draw is
0, always in the support). -/
def drawsZero : AbmDraws where
  deathDraws := [0, 0, 0, 0]
  growthDraws := [0, 0, 0, 0]
  mutDraws := [0, 0, 0, 0]
  mutDest := [[0, 0, 0, 0], [0, 0, 0, 0], [0, 0, 0, 0], [0, 0, 0, 0]]

/-- A configuration with passaging enabled, `passage_time = 24`,
`dilution = 40` and `timestep_scale = 1`. -/
def cfgPassage : AbmCfg where
  death_model := none
  death_rate := 1 / 10
  mut_rate := 1 / 10 ^ 9
  timestep_scale := 1
  n_allele := 4
  passage := true
  passage_time := 24
  dilution := 40
  constant_pop := false
  max_cells := 10 ^ 9

/-! ## Helper lemmas -/

lemma hammingDistance_comm (pad m n : ℕ) :
    hammingDistance pad m n = hammingDistance pad n m := by
  unfold hammingDistance
  congr 1
  apply List.filter_congr
  intro i _
  cases m.testBit i <;> cases n.testBit i <;> rfl

lemma hammingDistance_xor_zero (pad m k : ℕ) :
    hammingDistance pad m k = hammingDistance pad 0 (m ^^^ k) := by
  unfold hammingDistance
  congr 1
  apply List.filter_congr
  intro i _
  rw [Nat.testBit_xor, Nat.zero_testBit]
  cases m.testBit i <;> cases k.testBit i <;> rfl

lemma transRaw_comm (pad m n : ℕ) : transRaw pad m n = transRaw pad n m := by
  unfold transRaw
  rw [hammingDistance_comm]

lemma transRaw_xor_zero (pad m k : ℕ) :
    transRaw pad m k = transRaw pad 0 (m ^^^ k) := by
  unfold transRaw
  rw [hammingDistance_xor_zero]

lemma xor_lt_two_pow {A m k : ℕ} (hm : m < 2 ^ A) (hk : k < 2 ^ A) :
    m ^^^ k < 2 ^ A := Nat.bitwise_lt hm hk

lemma xor_cancel_left' (m a : ℕ) : m ^^^ (m ^^^ a) = a := by
  rw [← Nat.xor_assoc, Nat.xor_self, Nat.zero_xor]

/-- Every row of the raw 0/1 adjacency matrix over a full bit-string space has
the same sum: XOR-translation by the row index is a bijection of the space. -/
lemma rowSumRaw_eq_zero_row (pad A m : ℕ) (hm : m < 2 ^ A) :
    rowSumRaw pad (2 ^ A) m = rowSumRaw pad (2 ^ A) 0 := by
  unfold rowSumRaw
  refine Finset.sum_nbij' (fun k => m ^^^ k) (fun k => m ^^^ k) ?_ ?_ ?_ ?_ ?_
  · intro a ha
    exact Finset.mem_range.2 (xor_lt_two_pow hm (Finset.mem_range.1 ha))
  · intro a ha
    exact Finset.mem_range.2 (xor_lt_two_pow hm (Finset.mem_range.1 ha))
  · intro a _
    exact xor_cancel_left' m a
  · intro a _
    exact xor_cancel_left' m a
  · intro a _
    exact transRaw_xor_zero pad m a

lemma testBit_one (i : ℕ) : Nat.testBit 1 i = decide (i = 0) := by
  cases h : Nat.testBit 1 i with
  | true =>
    have := Nat.testBit_one_eq_true_iff_self_eq_zero.1 h
    simp [this]
  | false =>
    have : i ≠ 0 := by
      intro hi
      rw [hi] at h
      simp [Nat.testBit_one_eq_true_iff_self_eq_zero] at h
    simp [this]

lemma hammingDistance_zero_one (A : ℕ) (hA : 1 ≤ A) :
    hammingDistance A 0 1 = 1 := by
  unfold hammingDistance
  obtain ⟨a, rfl⟩ : ∃ a, A = a + 1 := ⟨A - 1, by omega⟩
  rw [List.range_succ_eq_map]
  have hp : ∀ i : ℕ, ((0 : ℕ).testBit i != (1 : ℕ).testBit i) = decide (i = 0) := by
    intro i
    rw [Nat.zero_testBit, testBit_one]
    cases h : decide (i = 0) <;> rfl
  simp only [List.filter_cons, hp]
  simp [List.filter_map, Function.comp_def]

lemma transRaw_nonneg (pad m n : ℕ) : 0 ≤ transRaw pad m n := by
  unfold transRaw
  split
  · exact le_refl 0
  · positivity

lemma rowSumRaw_zero_pos (A : ℕ) (hA : 1 ≤ A) : 0 < rowSumRaw A (2 ^ A) 0 := by
  unfold rowSumRaw
  apply Finset.sum_pos'
  · intro i _
    exact transRaw_nonneg A 0 i
  · refine ⟨1, Finset.mem_range.2 ?_, ?_⟩
    · calc 1 < 2 ^ 1 := by norm_num
        _ ≤ 2 ^ A := Nat.pow_le_pow_right (by norm_num) hA
    · unfold transRaw
      rw [hammingDistance_zero_one A hA]
      norm_num

lemma log2_two_pow (A : ℕ) : Nat.log2 (2 ^ A) = A := by
  rw [Nat.log2_eq_log_two, Nat.log_pow (by norm_num)]


lemma intFloor_natCast_div (m dnum : ℕ) (hd : 0 < dnum) :
    ⌊(m : ℚ) / (dnum : ℚ)⌋ = ((m / dnum : ℕ) : ℤ) := by
  rw [Int.floor_eq_iff]
  constructor
  · rw [le_div_iff₀ (by exact_mod_cast hd)]
    push_cast
    exact_mod_cast Nat.cast_le.2 (Nat.div_mul_le_self m dnum)
  · rw [div_lt_iff₀ (by exact_mod_cast hd)]
    have hnat : m < (m / dnum + 1) * dnum := by
      have h := Nat.div_add_mod m dnum
      have hm : m % dnum < dnum := Nat.mod_lt m hd
      calc m = dnum * (m / dnum) + m % dnum := h.symm
        _ < dnum * (m / dnum) + dnum := by omega
        _ = (m / dnum + 1) * dnum := by ring
    push_cast
    exact_mod_cast hnat

lemma floatMod_natCast (m dnum : ℕ) (hd : 0 < dnum) :
    floatMod (m : ℚ) (dnum : ℚ) = ((m % dnum : ℕ) : ℚ) := by
  unfold floatMod
  rw [intFloor_natCast_div m dnum hd]
  have hnat : (m / dnum) * dnum + m % dnum = m := by
    rw [mul_comm]
    exact Nat.div_add_mod m dnum
  have hq : ((m / dnum : ℕ) : ℚ) * (dnum : ℚ) + ((m % dnum : ℕ) : ℚ) = (m : ℚ) := by
    exact_mod_cast hnat
  rw [Int.cast_natCast]
  linarith

lemma floatMod_zero_iff_dvd (m dnum : ℕ) (hd : 0 < dnum) :
    floatMod (m : ℚ) (dnum : ℚ) = 0 ↔ dnum ∣ m := by
  rw [floatMod_natCast m dnum hd, Nat.cast_eq_zero]
  exact Nat.dvd_iff_mod_eq_zero.symm

/-- C4: with passaging enabled, `passage_time = 24`, `dilution = 40` and
`timestep_scale = 1`, at every timestep that is a non-zero multiple of 24
`passage_cells` returns the elementwise floor of the count vector divided by
40 (this is the vector the same call to `abm` then feeds into birth/death);
at every other timestep, and whenever passaging is disabled, it returns its
input unchanged. -/
theorem passage_cells_spec (cfg cfg' : AbmCfg) (hp : cfg.passage = true)
    (hts : cfg.timestep_scale = 1) (hpt : cfg.passage_time = 24)
    (hd : cfg.dilution = 40) (hoff : cfg'.passage = false)
    (mm : ℕ) (counts : List ℕ) :
    (mm ≠ 0 → 24 ∣ mm →
      passage_cells cfg mm counts = counts.map (fun c => c / 40)) ∧
    ((¬ 24 ∣ mm ∨ mm = 0) → passage_cells cfg mm counts = counts) ∧
    passage_cells cfg' mm counts = counts := by
  have h24 : ((24 : ℕ) : ℚ) = (24 : ℚ) := by norm_num
  have hcond : floatMod ((mm : ℚ) * cfg.timestep_scale) cfg.passage_time = 0 ↔
      (24 : ℕ) ∣ mm := by
    rw [hts, hpt, mul_one, ← h24]
    exact floatMod_zero_iff_dvd mm 24 (by norm_num)
  refine ⟨?_, ?_, ?_⟩
  · intro hmm hdvd
    unfold passage_cells
    rw [if_pos ⟨hcond.2 hdvd, hmm, hp⟩]
    apply List.map_congr_left
    intro c _
    rw [hd]
    have h40 : (40 : ℚ) = ((40 : ℕ) : ℚ) := by norm_num
    rw [h40, Nat.floor_div_eq_div]
  · intro hor
    unfold passage_cells
    rw [if_neg]
    rintro ⟨hc1, hc2, -⟩
    rcases hor with h | h
    · exact h (hcond.1 hc1)
    · exact hc2 h
  · unfold passage_cells
    rw [if_neg]
    rintro ⟨-, -, hc3⟩
    rw [hoff] at hc3
    exact Bool.false_ne_true hc3

/-- C4 witness: `passage_cells_spec` at timesteps 24 and 25 on `[81, 5]`. -/
theorem passage_cells_spec_witness :
    passage_cells cfgPassage 24 [81, 5] = [2, 0] ∧
    passage_cells cfgPassage 25 [81, 5] = [81, 5] ∧
    passage_cells cfgTwo 24 [81, 5] = [81, 5] := by
  have h24 := passage_cells_spec cfgPassage cfgTwo rfl rfl rfl rfl rfl 24 [81, 5]
  have h25 := passage_cells_spec cfgPassage cfgTwo rfl rfl rfl rfl rfl 25 [81, 5]
  refine ⟨(h24.1 (by norm_num) (by norm_num)).trans rfl, ?_, h24.2.2⟩
  exact h25.2.1 (by norm_num)



/-- C6 counterexample: with allele count 2 and genotype count 5 the
initialization check raises nothing although 5 is not 2 to the 2: the code only
compares the allele count against the floor of the base-2 logarithm of the
genotype count, so this mismatched pair passes. -/
theorem init_population_check_cex :
    init_population_check (some 2) 5 = Except.ok 2 ∧ (5 : ℕ) ≠ 2 ^ 2 := by
  constructor
  · simp [init_population_check, Nat.log2]
  · norm_num

/-- C6 amended: population initialization raises the genotype/allele
mismatch Warning exactly when the supplied allele count differs from
`floor(log2(genotype count))`.  In particular a consistent pair
(genotype count equal to 2 to the allele count) never raises, but some
inconsistent pairs (such as 2 alleles with 5 genotypes) also do not raise. -/
theorem init_population_check_iff (a g : ℕ) :
    (init_population_check (some a) g = Except.ok a ↔ a = Nat.log2 g) ∧
    (init_population_check (some a) g = Except.error mismatchWarning ↔
      a ≠ Nat.log2 g) ∧
    (g = 2 ^ a → init_population_check (some a) g = Except.ok a) := by
  by_cases h : a = Nat.log2 g
  · refine ⟨⟨fun _ => h, fun _ => ?_⟩, ⟨fun he => ?_, fun hne => absurd h hne⟩,
      fun _ => ?_⟩
    · simp [init_population_check, h]
    · simp [init_population_check, h] at he
    · simp [init_population_check, h]
  · refine ⟨⟨fun he => ?_, fun ha => absurd ha h⟩, ⟨fun _ => h, fun _ => ?_⟩,
      fun hg => ?_⟩
    · simp [init_population_check, h] at he
    · simp [init_population_check, h]
    · subst hg
      exact absurd (log2_two_pow a).symm h

/-- C6 witness: `init_population_check_iff` at the consistent pair (3, 8). -/
theorem init_population_check_iff_witness :
    init_population_check (some 3) 8 = Except.ok 3 :=
  (init_population_check_iff 3 8).2.2 (by norm_num)

/-- C10: when `constant_pop` is enabled, population initialization forces
`use_carrying_cap` to `False` and replaces `init_counts` with the elementwise
floor of `init_counts` scaled by `max_cells` divided by its sum, so the
initial population total is at most `max_cells` (given a non-zero initial
sum, without which the rescaling divides by zero). -/
theorem init_constant_pop_spec (ic : List ℚ) (M : ℚ) (ucc : Bool)
    (hs : ic.sum ≠ 0) :
    (init_constant_pop ic M ucc true).2 = false ∧
    (init_constant_pop ic M ucc true).1 =
      (ic.map (fun c => c * M / ic.sum)).map (fun c => ((⌊c⌋ : ℤ) : ℚ)) ∧
    (init_constant_pop ic M ucc true).1.sum ≤ M := by
  refine ⟨rfl, rfl, ?_⟩
  have hle : ((ic.map (fun c => c * M / ic.sum)).map
      (fun c => ((⌊c⌋ : ℤ) : ℚ))).sum ≤
      ((ic.map (fun c => c * M / ic.sum)).map id).sum := by
    apply List.sum_le_sum
    intro i _
    exact Int.floor_le i
  have hsum : ((ic.map (fun c => c * M / ic.sum)).map id).sum = M := by
    rw [List.map_id]
    have : (ic.map (fun c => c * M / ic.sum)).sum =
        (ic.map (fun c => c * (M / ic.sum))).sum := by
      congr 1
      apply List.map_congr_left
      intro c _
      ring
    rw [this]
    have hmr : (ic.map (fun c => c * (M / ic.sum))).sum =
        (ic.map id).sum * (M / ic.sum) := List.sum_map_mul_right ic id (M / ic.sum)
    rw [hmr, List.map_id, mul_div_assoc', mul_comm, mul_div_assoc, div_self hs,
      mul_one]
  calc (init_constant_pop ic M ucc true).1.sum
      = ((ic.map (fun c => c * M / ic.sum)).map (fun c => ((⌊c⌋ : ℤ) : ℚ))).sum := rfl
    _ ≤ ((ic.map (fun c => c * M / ic.sum)).map id).sum := hle
    _ = M := hsum

/-- C10 witness: `init_constant_pop_spec` on counts `[3, 1]` with
`max_cells = 5`. -/
theorem init_constant_pop_spec_witness :
    (init_constant_pop [3, 1] 5 true true).2 = false ∧
    (init_constant_pop [3, 1] 5 true true).1 =
      (([3, 1] : List ℚ).map (fun c => c * 5 / ([3, 1] : List ℚ).sum)).map
        (fun c => ((⌊c⌋ : ℤ) : ℚ)) ∧
    (init_constant_pop [3, 1] 5 true true).1.sum ≤ 5 :=
  init_constant_pop_spec [3, 1] 5 true (by norm_num)



lemma mem_zipWith_add_nonneg {l1 l2 : List ℤ} (h1 : ∀ x ∈ l1, 0 ≤ x)
    (h2 : ∀ x ∈ l2, 0 ≤ x) : ∀ x ∈ List.zipWith (· + ·) l1 l2, 0 ≤ x := by
  induction l1 generalizing l2 with
  | nil => intro x hx; simp at hx
  | cons a l ih =>
    cases l2 with
    | nil => intro x hx; simp at hx
    | cons b l' =>
      intro x hx
      rw [List.zipWith_cons_cons] at hx
      rcases List.mem_cons.1 hx with h | h
      · subst h
        exact add_nonneg (h1 a (List.mem_cons_self a l)) (h2 b (List.mem_cons_self b l'))
      · exact ih (fun y hy => h1 y (List.mem_cons_of_mem a hy))
          (fun y hy => h2 y (List.mem_cons_of_mem b hy)) x h

lemma foldl_mutDest_nonneg (dests : List (List ℕ)) :
    ∀ acc : List ℤ, (∀ x ∈ acc, 0 ≤ x) →
      ∀ x ∈ dests.foldl
        (fun acc dest => List.zipWith (· + ·) acc (dest.map (fun (k : ℕ) => (k : ℤ))))
        acc, 0 ≤ x := by
  induction dests with
  | nil => intro acc hacc x hx; exact hacc x hx
  | cons dest rest ih =>
    intro acc hacc x hx
    rw [List.foldl_cons] at hx
    refine ih _ ?_ x hx
    apply mem_zipWith_add_nonneg hacc
    intro y hy
    rcases List.mem_map.1 hy with ⟨k, -, rfl⟩
    exact Int.natCast_nonneg k

lemma zipWith_sub_nonneg {daughter : List ℤ} {muts : List ℕ}
    (h : List.Forall₂ (fun (a : ℤ) (k : ℕ) => (k : ℤ) ≤ a) daughter muts) :
    ∀ x ∈ List.zipWith (fun (a : ℤ) (m : ℕ) => a - (m : ℤ)) daughter muts,
      0 ≤ x := by
  induction h with
  | nil => intro x hx; simp at hx
  | cons hab hrest ih =>
    intro x hx
    rw [List.zipWith_cons_cons] at hx
    rcases List.mem_cons.1 hx with h | h
    · subst h
      omega
    · exact ih x h

lemma clamp_nonneg (l : List ℤ) : ∀ x ∈ l.map (fun c => max c 0), 0 ≤ x := by
  intro x hx
  rcases List.mem_map.1 hx with ⟨c, -, rfl⟩
  exact le_max_right c 0

lemma abmPreNormalize_nonneg (cfg : AbmCfg) (mm nG : ℕ) (fitLandRaw : List ℚ)
    (counts0 : List ℕ) (d : AbmDraws)
    (hmut : List.Forall₂ (fun (a : ℤ) (k : ℕ) => (k : ℤ) ≤ a)
      (abmDaughterCounts cfg (fitLandRaw.map (fun f => f * cfg.timestep_scale)) d)
      d.mutDraws) :
    ∀ x ∈ abmPreNormalize cfg mm nG fitLandRaw counts0 d, 0 ≤ x := by
  intro x hx
  unfold abmPreNormalize at hx
  refine mem_zipWith_add_nonneg ?_ ?_ x hx
  · exact foldl_mutDest_nonneg d.mutDest _ (clamp_nonneg _)
  · exact zipWith_sub_nonneg hmut

lemma constantPopNormalize_nonneg (max_cells : ℚ) (hM : 0 ≤ max_cells)
    (ct : List ℤ) (hct : ∀ x ∈ ct, 0 ≤ x) :
    ∀ x ∈ constantPopNormalize max_cells ct, 0 ≤ x := by
  intro x hx
  unfold constantPopNormalize at hx
  rcases List.mem_map.1 hx with ⟨c, hc, rfl⟩
  have hs : (0 : ℚ) ≤ (ct.map (fun (c : ℤ) => (c : ℚ))).sum := by
    apply List.sum_nonneg
    intro y hy
    rcases List.mem_map.1 hy with ⟨z, hz, rfl⟩
    exact_mod_cast hct z hz
  apply Int.ceil_nonneg
  have hc0 : (0 : ℚ) ≤ (c : ℚ) := by exact_mod_cast hct c hc
  positivity

/-- C1 amended: every entry of the count vector returned by `abm` is
non-negative — under either death model — provided each genotype's realized
Poisson mutation draw does not exceed its daughter count, `max_cells` is
non-negative, and in constant-population mode the pre-normalization total is
positive.  The extra proviso on the mutation draws is forced by the code:
the negative-count clamp runs before the mutation loop, so a mutation draw
exceeding the daughter pool drives the returned count negative (see the
counterexample `abm_negative_count_cex`). -/
theorem abm_nonneg (cfg : AbmCfg) (mm nG : ℕ) (fitLandRaw : List ℚ)
    (counts0 : List ℕ) (d : AbmDraws)
    (hmut : List.Forall₂ (fun (a : ℤ) (k : ℕ) => (k : ℤ) ≤ a)
      (abmDaughterCounts cfg (fitLandRaw.map (fun f => f * cfg.timestep_scale)) d)
      d.mutDraws)
    (hM : 0 ≤ cfg.max_cells)
    (hcp : cfg.constant_pop = true →
      0 < (abmPreNormalize cfg mm nG fitLandRaw counts0 d).sum) :
    ∀ x ∈ abm cfg mm nG fitLandRaw counts0 d, 0 ≤ x := by
  intro x hx
  unfold abm at hx
  by_cases hc : cfg.constant_pop
  · rw [if_pos hc] at hx
    exact constantPopNormalize_nonneg cfg.max_cells hM _
      (abmPreNormalize_nonneg cfg mm nG fitLandRaw counts0 d hmut) x hx
  · rw [if_neg hc] at hx
    exact abmPreNormalize_nonneg cfg mm nG fitLandRaw counts0 d hmut x hx

/-- C1 witness: `abm_nonneg` on a concrete tame draw realization, read off
at the first entry of the returned count vector. -/
theorem abm_nonneg_witness :
    0 ≤ (abm cfgTwo 1 2 [1, 1] [3, 0] drawsTame).getD 0 0 := by
  have hval : abm cfgTwo 1 2 [1, 1] [3, 0] drawsTame = [3, 1] := by
    simp [abm, abmPreNormalize, abmCountsAfterDeath, abmDaughterCounts,
      passage_cells, cfgTwo, drawsTame, constantPopNormalize, deltaCells, floatMod]
  have h := abm_nonneg cfgTwo 1 2 [1, 1] [3, 0] drawsTame
    (by simp [abmDaughterCounts, cfgTwo, drawsTame, deltaCells, List.forall₂_cons])
    (by norm_num [cfgTwo])
    (by intro hc; simp [cfgTwo] at hc)
    3 (by rw [hval]; exact List.mem_cons_self 3 [1])
  rw [hval]
  exact h

/-- C1 counterexample: a draw realization in the support of the samplers
(certified by `abmDrawsOk` against the actual mutation matrix) on the
non-negative input `[10, 0]` for which `abm` returns `[-1, 3]`: genotype 0's
Poisson mutation draw (3) exceeds its daughter draw (1) and the clamp has
already run, so the returned count vector has a negative entry. -/
theorem abm_negative_count_cex :
    abm cfgTwo 1 2 [1, 1] [10, 0] drawsNeg = [-1, 3] ∧
    (abm cfgTwo 1 2 [1, 1] [10, 0] drawsNeg).getD 0 0 < 0 ∧
    abmDrawsOk cfgTwo 1 2 [1, 1] [10, 0] (random_mutations 2) drawsNeg = true := by
  have hval : abm cfgTwo 1 2 [1, 1] [10, 0] drawsNeg = [-1, 3] := by
    simp [abm, abmPreNormalize, abmCountsAfterDeath, abmDaughterCounts, passage_cells,
      cfgTwo, drawsNeg, constantPopNormalize, deltaCells, floatMod]
  refine ⟨hval, ?_, ?_⟩
  · rw [hval]
    norm_num
  · have hr : List.range 2 = [0, 1] := rfl
    have hr1 : List.range 1 = [0] := rfl
    simp [abmDrawsOk, cfgTwo, drawsNeg, passage_cells, abmCountsAfterDeath,
      abmDaughterCounts, deltaCells, poissonListOk, poissonOk, destOk, random_mutations,
      transRaw, rowSumRaw, hammingDistance, floatMod, Finset.sum_range_succ, hr, hr1,
      List.all_cons, Nat.log2, List.filter, Nat.testBit]



lemma sum_map_add_one (l : List ℤ) (f : ℤ → ℚ) :
    (l.map fun c => f c + 1).sum = (l.map f).sum + l.length := by
  induction l with
  | nil => simp
  | cons a l ih =>
    simp only [List.map_cons, List.sum_cons, ih, List.length_cons]
    push_cast
    ring

/-- C3 amended: under constant-population mode (with integer `max_cells`
and a non-zero pre-normalization total) the sum of the count vector returned
by `abm` lies between `max_cells` and `max_cells + n_genotype - 1`: the
ceiling applied to each rescaled entry can add strictly less than one per
genotype, which is more than the claimed slack of 1 as soon as there are
more than two genotypes (see `abm_constant_pop_sum_cex`). -/
theorem abm_constant_pop_sum_bounds (cfg : AbmCfg) (mm nG : ℕ)
    (fitLandRaw : List ℚ) (counts0 : List ℕ) (d : AbmDraws) (M : ℕ)
    (hc : cfg.constant_pop = true) (hM : cfg.max_cells = (M : ℚ))
    (hs : (abmPreNormalize cfg mm nG fitLandRaw counts0 d).sum ≠ 0) :
    (M : ℤ) ≤ (abm cfg mm nG fitLandRaw counts0 d).sum ∧
    (abm cfg mm nG fitLandRaw counts0 d).sum ≤
      (M : ℤ) + (abmPreNormalize cfg mm nG fitLandRaw counts0 d).length - 1 := by
  set pre := abmPreNormalize cfg mm nG fitLandRaw counts0 d with hpre
  have hsq : ((pre.map (fun (c : ℤ) => (c : ℚ))).sum : ℚ) = ((pre.sum : ℤ) : ℚ) :=
    (Int.cast_list_sum pre).symm
  have hsq0 : ((pre.sum : ℤ) : ℚ) ≠ 0 := by exact_mod_cast hs
  have habm : abm cfg mm nG fitLandRaw counts0 d =
      pre.map (fun (c : ℤ) =>
        ⌈(c : ℚ) * ((M : ℚ) / ((pre.sum : ℤ) : ℚ))⌉) := by
    unfold abm
    rw [← hpre, if_pos hc]
    unfold constantPopNormalize
    rw [hM, hsq]
  have hkey : (pre.map (fun (c : ℤ) =>
      (c : ℚ) * ((M : ℚ) / ((pre.sum : ℤ) : ℚ)))).sum = (M : ℚ) := by
    rw [List.sum_map_mul_right pre (fun (c : ℤ) => (c : ℚ))
      ((M : ℚ) / ((pre.sum : ℤ) : ℚ)), hsq]
    rw [mul_div_assoc', mul_comm, mul_div_assoc, div_self hsq0, mul_one]
  have hcastsum : (((abm cfg mm nG fitLandRaw counts0 d).sum : ℤ) : ℚ) =
      (pre.map (fun (c : ℤ) =>
        ((⌈(c : ℚ) * ((M : ℚ) / ((pre.sum : ℤ) : ℚ))⌉ : ℤ) : ℚ))).sum := by
    rw [habm, Int.cast_list_sum, List.map_map]
    rfl
  constructor
  · have hle : (pre.map (fun (c : ℤ) =>
        (c : ℚ) * ((M : ℚ) / ((pre.sum : ℤ) : ℚ)))).sum ≤
        (pre.map (fun (c : ℤ) =>
          ((⌈(c : ℚ) * ((M : ℚ) / ((pre.sum : ℤ) : ℚ))⌉ : ℤ) : ℚ))).sum := by
      apply List.sum_le_sum
      intro i _
      exact Int.le_ceil _
    rw [hkey] at hle
    rw [← hcastsum] at hle
    exact_mod_cast hle
  · have hne : pre ≠ [] := by
      intro h0
      rw [h0] at hs
      exact hs rfl
    obtain ⟨c0, hc0⟩ := List.exists_mem_of_ne_nil pre hne
    have hlt : (pre.map (fun (c : ℤ) =>
        ((⌈(c : ℚ) * ((M : ℚ) / ((pre.sum : ℤ) : ℚ))⌉ : ℤ) : ℚ))).sum <
        (pre.map (fun (c : ℤ) =>
          (c : ℚ) * ((M : ℚ) / ((pre.sum : ℤ) : ℚ)) + 1)).sum := by
      apply List.sum_lt_sum
      · intro i _
        exact (Int.ceil_lt_add_one _).le
      · exact ⟨c0, hc0, Int.ceil_lt_add_one _⟩
    rw [sum_map_add_one pre (fun (c : ℤ) =>
      (c : ℚ) * ((M : ℚ) / ((pre.sum : ℤ) : ℚ))), hkey] at hlt
    rw [← hcastsum] at hlt
    have : (abm cfg mm nG fitLandRaw counts0 d).sum < (M : ℤ) + pre.length := by
      exact_mod_cast hlt
    omega

/-- C3 witness: `abm_constant_pop_sum_bounds` on the four-genotype
constant-population configuration. -/
theorem abm_constant_pop_sum_bounds_witness :
    (5 : ℤ) ≤ (abm cfgConstPop 1 4 [1, 1, 1, 1] [1, 1, 1, 1] drawsZero).sum ∧
    (abm cfgConstPop 1 4 [1, 1, 1, 1] [1, 1, 1, 1] drawsZero).sum ≤
      (5 : ℤ) + (abmPreNormalize cfgConstPop 1 4 [1, 1, 1, 1] [1, 1, 1, 1]
        drawsZero).length - 1 := by
  have h := abm_constant_pop_sum_bounds cfgConstPop 1 4 [1, 1, 1, 1] [1, 1, 1, 1]
    drawsZero 5 rfl (by norm_num [cfgConstPop]) ?_
  · exact_mod_cast h
  · simp [abmPreNormalize, abmCountsAfterDeath, abmDaughterCounts, passage_cells,
      cfgConstPop, drawsZero, deltaCells, floatMod]

/-- C3 counterexample: with `max_cells = 5`, four genotypes and a possible
draw realization, `abm` returns `[2, 2, 2, 2]` of sum 8, which is not within
1 of the configured max cell count. -/
theorem abm_constant_pop_sum_cex :
    abm cfgConstPop 1 4 [1, 1, 1, 1] [1, 1, 1, 1] drawsZero = [2, 2, 2, 2] ∧
    (abm cfgConstPop 1 4 [1, 1, 1, 1] [1, 1, 1, 1] drawsZero).sum = 8 ∧
    cfgConstPop.max_cells = 5 ∧
    abmDrawsOk cfgConstPop 1 4 [1, 1, 1, 1] [1, 1, 1, 1] (random_mutations 4)
      drawsZero = true ∧
    ¬ ((abm cfgConstPop 1 4 [1, 1, 1, 1] [1, 1, 1, 1] drawsZero).sum ≤ 5 + 1) := by
  have hval : abm cfgConstPop 1 4 [1, 1, 1, 1] [1, 1, 1, 1] drawsZero =
      [2, 2, 2, 2] := by
    simp [abm, abmPreNormalize, abmCountsAfterDeath, abmDaughterCounts, passage_cells,
      cfgConstPop, drawsZero, constantPopNormalize, deltaCells, floatMod]
    norm_num [Int.ceil_eq_iff]
  refine ⟨hval, ?_, rfl, ?_, ?_⟩
  · rw [hval]; rfl
  · have hr : List.range 4 = [0, 1, 2, 3] := rfl
    have hl : Nat.log2 4 = 2 := by simp [Nat.log2]
    have hr2 : List.range 2 = [0, 1] := rfl
    simp [abmDrawsOk, cfgConstPop, drawsZero, passage_cells, abmCountsAfterDeath,
      abmDaughterCounts, deltaCells, poissonListOk, poissonOk, destOk, random_mutations,
      transRaw, rowSumRaw, hammingDistance, floatMod, Finset.sum_range_succ, hr, hl, hr2,
      List.all_cons, List.filter, Nat.testBit]
  · rw [hval]
    decide



lemma getD_range_map {α : Type} [Inhabited α] (f : ℕ → α) (n k : ℕ) (hk : k < n)
    (dflt : α) : ((List.range n).map f).getD k dflt = f k := by
  rw [List.getD_eq_getElem?_getD, List.getElem?_map, List.getElem?_range hk]
  rfl

lemma runFixedGo_spec (step : ℕ → List ℤ → List ℤ) (init : List ℤ) :
    ∀ fuel mm, runFixedGo step fuel mm
        ((List.range (mm + 1)).map (trajFun step init)) =
      ((List.range (mm + fuel + 1)).map (trajFun step init), mm + fuel) := by
  intro fuel
  induction fuel with
  | zero => intro mm; rfl
  | succ f ih =>
    intro mm
    rw [runFixedGo]
    have hget : ((List.range (mm + 1)).map (trajFun step init)).getD mm [] =
        trajFun step init mm :=
      getD_range_map (trajFun step init) (mm + 1) mm (by omega) []
    have happ : (List.range (mm + 1)).map (trajFun step init) ++
        [step mm (trajFun step init mm)] =
        (List.range (mm + 2)).map (trajFun step init) := by
      have h2 : (List.range (mm + 2)).map (trajFun step init) =
          (List.range (mm + 1)).map (trajFun step init) ++
            [trajFun step init (mm + 1)] := by
        rw [show mm + 2 = (mm + 1) + 1 from rfl]
        nth_rewrite 1 [List.range_succ]
        rw [List.map_append]
        rfl
      rw [h2]
      rfl
    rw [hget, happ]
    have := ih (mm + 1)
    rw [show mm + 1 + f + 1 = mm + (f + 1) + 1 by omega] at this
    rw [show mm + 1 + f = mm + (f + 1) by omega] at this
    exact this

/-- C7: with the stop condition disabled, `run_abm` performs exactly
`n_timestep - 1` update steps: the trajectory is rows `0 .. n_timestep - 1`
of the step recurrence started at the initial counts (row `k+1` is the
update step applied to row `k`), and the returned terminal timestep is
`n_timestep - 1`. -/
theorem run_abm_fixed_spec (step : ℕ → List ℤ → List ℤ) (init : List ℤ)
    (n : ℕ) (hn : 1 ≤ n) :
    run_abm_fixed step init n = ((List.range n).map (trajFun step init), n - 1) ∧
    (run_abm_fixed step init n).1.length = n ∧
    (run_abm_fixed step init n).1.getD 0 [] = init ∧
    ∀ k, k + 1 < n → (run_abm_fixed step init n).1.getD (k + 1) [] =
      step k ((run_abm_fixed step init n).1.getD k []) := by
  have h0 : [init] = (List.range (0 + 1)).map (trajFun step init) := rfl
  have hmain : run_abm_fixed step init n =
      ((List.range n).map (trajFun step init), n - 1) := by
    unfold run_abm_fixed
    have heq : 0 + (n - 1) + 1 = n := by omega
    have heq2 : 0 + (n - 1) = n - 1 := by omega
    rw [h0, runFixedGo_spec step init (n - 1) 0, heq, heq2]
  refine ⟨hmain, ?_, ?_, ?_⟩
  · rw [hmain]
    simp
  · rw [hmain]
    exact getD_range_map (trajFun step init) n 0 (by omega) []
  · intro k hk
    rw [hmain]
    rw [getD_range_map (trajFun step init) n (k + 1) hk []]
    rw [getD_range_map (trajFun step init) n k (by omega) []]
    rfl

/-- C7 witness: `run_abm_fixed_spec` with horizon 3 and a concrete step. -/
theorem run_abm_fixed_spec_witness :
    run_abm_fixed (fun m c => c ++ [(m : ℤ)]) [7] 3 =
      ((List.range 3).map (trajFun (fun m c => c ++ [(m : ℤ)]) [7]), 3 - 1) ∧
    (run_abm_fixed (fun m c => c ++ [(m : ℤ)]) [7] 3).1.length = 3 ∧
    (run_abm_fixed (fun m c => c ++ [(m : ℤ)]) [7] 3).1.getD 0 [] = [7] ∧
    ∀ k, k + 1 < 3 → (run_abm_fixed (fun m c => c ++ [(m : ℤ)]) [7] 3).1.getD
        (k + 1) [] =
      (run_abm_fixed (fun m c => c ++ [(m : ℤ)]) [7] 3).1.getD k [] ++ [(k : ℤ)] :=
  run_abm_fixed_spec (fun m c => c ++ [(m : ℤ)]) [7] 3 (by norm_num)

lemma runStopGo_error (step : ℕ → List ℤ → List ℤ) (finalLandscape : List ℚ)
    (nT : ℕ) (h : ∀ m c, argmax finalLandscape ≠ argmax (step m c)) :
    ∀ fuel mm traj, nT ≤ mm + fuel →
      runStopGo step finalLandscape nT fuel mm traj =
        Except.error stopCondWarning := by
  intro fuel
  induction fuel with
  | zero => intro mm traj _; rfl
  | succ f ih =>
    intro mm traj hle
    rw [runStopGo]
    unfold check_stop_cond
    by_cases hm : nT ≤ mm + 1
    · rw [if_pos hm]
    · rw [if_neg hm]
      have hd : decide (argmax finalLandscape =
          argmax (step mm (traj.getD mm []))) = false :=
        decide_eq_false (h mm (traj.getD mm []))
      rw [hd]
      exact ih (mm + 1) _ (by omega)

/-- C5 amended: under the fixation stop condition, if the most numerous
genotype never equals the fittest genotype at max dose, the loop reaches the
horizon and `check_stop_cond` raises its Warning, which propagates out of
`run_abm`: the caller receives the raised exception and no best-effort
trajectory (the `stop_cond = True` after the raise is dead code). -/
theorem run_abm_stop_horizon (step : ℕ → List ℤ → List ℤ)
    (finalLandscape : List ℚ) (nT : ℕ) (init : List ℤ)
    (h : ∀ m c, argmax finalLandscape ≠ argmax (step m c)) :
    run_abm_stop step finalLandscape nT init = Except.error stopCondWarning :=
  runStopGo_error step finalLandscape nT h (nT + 1) 0 [init] (by omega)

/-- C5 witness: `run_abm_stop_horizon` on a concrete never-fixating run. -/
theorem run_abm_stop_horizon_witness :
    run_abm_stop (fun _ _ => [1, 0]) [0, 1] 5 [9, 0] =
      Except.error stopCondWarning := by
  apply run_abm_stop_horizon
  intro m c
  simp [argmax, argmaxGo]

/-- C5 counterexample: a stop-condition run that exceeds its horizon
evaluates to the raised Warning (`Except.error`), not to a warning-level
report alongside a best-effort trajectory. -/
theorem run_abm_stop_no_trajectory_cex :
    run_abm_stop (fun _ c => c) [0, 1] 1 [5, 0] =
      Except.error stopCondWarning := by
  simp [run_abm_stop, runStopGo, check_stop_cond, argmax, argmaxGo]



section Ramp

variable (first second third ramp t1 t2 : ℚ)

lemma rampVal_before_a (t : ℕ) (ht : (t : ℚ) < t1 - ramp / 2) :
    rampVal first second third ramp t1 t2 t = first := by
  cases t with
  | zero =>
    unfold rampVal rampStep
    rw [if_pos (by exact_mod_cast ht)]
  | succ s =>
    unfold rampVal rampStep
    rw [if_pos (by exact_mod_cast ht)]

lemma rampVal_plateau_second (hr : 0 < ramp) (t : ℕ)
    (hb : t1 + ramp / 2 ≤ (t : ℚ)) (hc : (t : ℚ) < t2 - ramp / 2) :
    rampVal first second third ramp t1 t2 t = second := by
  have hna : ¬ ((t : ℚ) < t1 - ramp / 2) := by
    push_neg
    linarith
  have hnb : ¬ ((t : ℚ) < t1 + ramp / 2) := by
    push_neg
    exact hb
  cases t with
  | zero =>
    unfold rampVal rampStep
    rw [if_neg (by exact_mod_cast hna), if_neg (by exact_mod_cast hnb),
      if_pos (by exact_mod_cast hc)]
  | succ s =>
    unfold rampVal rampStep
    rw [if_neg (by exact_mod_cast hna), if_neg (by exact_mod_cast hnb),
      if_pos (by exact_mod_cast hc)]

lemma rampVal_rampup (t : ℕ) (ha : t1 - ramp / 2 ≤ ((t + 1 : ℕ) : ℚ))
    (hb : ((t + 1 : ℕ) : ℚ) < t1 + ramp / 2) :
    rampVal first second third ramp t1 t2 (t + 1) =
      rampVal first second third ramp t1 t2 t + (second - first) / ramp := by
  have hna : ¬ (((t + 1 : ℕ) : ℚ) < t1 - ramp / 2) := by
    push_neg
    exact ha
  show rampStep first second third ((second - first) / ramp) (t1 - ramp / 2)
      (t1 + ramp / 2) (t2 - ramp / 2) (t2 + ramp / 2)
      (rampVal first second third ramp t1 t2 t) (t + 1) = _
  unfold rampStep
  rw [if_neg (by exact_mod_cast hna), if_pos (by exact_mod_cast hb)]

lemma rampVal_third_hold (hr : 0 < ramp) (hfs : first ≤ second)
    (hjump : third ≤ second + (second - first) / ramp)
    (hbc : t1 + ramp / 2 + 1 ≤ t2 - ramp / 2) (hc1 : 1 ≤ t2 - ramp / 2)
    (t : ℕ) (hc : t2 - ramp / 2 ≤ (t : ℚ)) :
    rampVal first second third ramp t1 t2 t = third := by
  have hslope : 0 ≤ (second - first) / ramp := by
    apply div_nonneg
    · linarith
    · linarith
  induction t with
  | zero =>
    exfalso
    have : ((0 : ℕ) : ℚ) = 0 := by norm_num
    rw [this] at hc
    linarith
  | succ s ih =>
    have hsa : ¬ (((s + 1 : ℕ) : ℚ) < t1 - ramp / 2) := by
      push_neg
      push_cast
      push_cast at hc
      linarith
    have hsb : ¬ (((s + 1 : ℕ) : ℚ) < t1 + ramp / 2) := by
      push_neg
      push_cast
      push_cast at hc
      linarith
    have hsc : ¬ (((s + 1 : ℕ) : ℚ) < t2 - ramp / 2) := by
      push_neg
      exact hc
    by_cases hcase : t2 - ramp / 2 ≤ (s : ℚ)
    · have hprev : rampVal first second third ramp t1 t2 s = third := ih hcase
      unfold rampVal rampStep
      rw [if_neg (by exact_mod_cast hsa), if_neg (by exact_mod_cast hsb),
        if_neg (by exact_mod_cast hsc), if_neg]
      rw [hprev]
      push_neg
      intro _
      linarith
    · push_neg at hcase
      have hsb2 : t1 + ramp / 2 ≤ (s : ℚ) := by
        push_cast at hc
        linarith
      have hprev : rampVal first second third ramp t1 t2 s = second :=
        rampVal_plateau_second first second third ramp t1 t2 hr s hsb2 hcase
      unfold rampVal rampStep
      rw [if_neg (by exact_mod_cast hsa), if_neg (by exact_mod_cast hsb),
        if_neg (by exact_mod_cast hsc), if_neg]
      rw [hprev]
      push_neg
      intro _
      linarith

/-- C8 amended: the curve built by `set_ramp_ud` holds the first dose
before the first transition window, adds the ramp-up slope at each step
inside that window, and holds the second dose up to the second transition
window; but the "ramp down" branch reuses the positive ramp-up slope and
only fires while `prev + slope < third_dose`, so whenever
`third_dose <= second_dose + slope` the curve jumps directly to the third
dose at the start of the second transition window and holds it — there is no
linear ramp down (see `set_ramp_ud_cex`). -/
theorem set_ramp_ud_spec (n : ℕ) (hr : 0 < ramp) (hfs : first ≤ second)
    (hjump : third ≤ second + (second - first) / ramp)
    (hbc : t1 + ramp / 2 + 1 ≤ t2 - ramp / 2) (hc1 : 1 ≤ t2 - ramp / 2) :
    ∀ t, t < n →
      (((t : ℚ) < t1 - ramp / 2 →
        (set_ramp_ud n first second third ramp t1 t2).getD t 0 = first) ∧
      (t1 + ramp / 2 ≤ (t : ℚ) → (t : ℚ) < t2 - ramp / 2 →
        (set_ramp_ud n first second third ramp t1 t2).getD t 0 = second) ∧
      (∀ s : ℕ, t = s + 1 → t1 - ramp / 2 ≤ (t : ℚ) → (t : ℚ) < t1 + ramp / 2 →
        (set_ramp_ud n first second third ramp t1 t2).getD t 0 =
          (set_ramp_ud n first second third ramp t1 t2).getD s 0 +
            (second - first) / ramp) ∧
      (t2 - ramp / 2 ≤ (t : ℚ) →
        (set_ramp_ud n first second third ramp t1 t2).getD t 0 = third)) := by
  intro t htn
  have hget : ∀ k, k < n →
      (set_ramp_ud n first second third ramp t1 t2).getD k 0 =
        rampVal first second third ramp t1 t2 k := by
    intro k hk
    exact getD_range_map (rampVal first second third ramp t1 t2) n k hk 0
  refine ⟨?_, ?_, ?_, ?_⟩
  · intro ht
    rw [hget t htn]
    exact rampVal_before_a first second third ramp t1 t2 t ht
  · intro h1 h2
    rw [hget t htn]
    exact rampVal_plateau_second first second third ramp t1 t2 hr t h1 h2
  · intro s hs h1 h2
    subst hs
    rw [hget (s + 1) htn, hget s (by omega)]
    exact rampVal_rampup first second third ramp t1 t2 s h1 h2
  · intro h1
    rw [hget t htn]
    exact rampVal_third_hold first second third ramp t1 t2 hr hfs hjump hbc hc1 t h1

end Ramp

/-- C8 witness: `set_ramp_ud_spec` at the ramp experiment parameters
first 0, second 10, third 5, ramp 2, transitions (3, 7), horizon 10. -/
theorem set_ramp_ud_spec_witness :
    (set_ramp_ud 10 0 10 5 2 3 7).getD 8 0 = 5 ∧
    (set_ramp_ud 10 0 10 5 2 3 7).getD 1 0 = 0 ∧
    (set_ramp_ud 10 0 10 5 2 3 7).getD 5 0 = 10 := by
  have h := set_ramp_ud_spec 0 10 5 2 3 7 10 (by norm_num) (by norm_num)
    (by norm_num) (by norm_num) (by norm_num)
  refine ⟨(h 8 (by norm_num)).2.2.2 (by norm_num),
    (h 1 (by norm_num)).1 (by norm_num),
    (h 5 (by norm_num)).2.1 (by norm_num) (by norm_num)⟩

/-- C8 counterexample: with first 0, second 10, third 5, ramp 2 and
transition times (3, 7), the curve generated by `set_ramp_ud` equals the
third dose (5) at timestep 7, inside the second transition window, while the
three-segment profile described by the spec (`rampProfileSpec`) is still
ramping down linearly and has 15/2 there; the generated curve is not the
spec profile. -/
theorem set_ramp_ud_cex :
    (set_ramp_ud 10 0 10 5 2 3 7).getD 7 0 = 5 ∧
    (rampProfileSpec 10 0 10 5 2 3 7).getD 7 0 = 15 / 2 ∧
    set_ramp_ud 10 0 10 5 2 3 7 ≠ rampProfileSpec 10 0 10 5 2 3 7 := by
  have hr10 : List.range 10 = [0, 1, 2, 3, 4, 5, 6, 7, 8, 9] := rfl
  have hA : set_ramp_ud 10 0 10 5 2 3 7 =
      [0, 0, 5, 10, 10, 10, 5, 5, 5, 5] := by
    simp [set_ramp_ud, rampVal, rampStep, hr10]
    norm_num
  have hB : rampProfileSpec 10 0 10 5 2 3 7 =
      [0, 0, 0, 5, 10, 10, 10, 15 / 2, 5, 5] := by
    simp [rampProfileSpec, hr10]
    norm_num
  refine ⟨?_, ?_, ?_⟩
  · rw [hA]
    rfl
  · rw [hB]
    rfl
  · rw [hA, hB]
    intro h
    rw [List.cons.injEq] at h
    rcases h with ⟨-, h⟩
    rw [List.cons.injEq] at h
    rcases h with ⟨-, h⟩
    rw [List.cons.injEq] at h
    rcases h with ⟨h5, -⟩
    norm_num at h5


/-- C2: for a genotype count that is a power of two (2 to the A, with
A at least 1), every row of the matrix returned by `random_mutations` sums
to exactly 1, and every non-zero off-diagonal entry connects genotypes whose
binary representations are at Hamming distance exactly 1. -/
theorem random_mutations_row_stochastic_hamming (A : ℕ) (hA : 1 ≤ A) (m : ℕ)
    (hm : m < 2 ^ A) :
    (∑ n ∈ Finset.range (2 ^ A), random_mutations (2 ^ A) m n) = 1 ∧
      ∀ n : ℕ, m ≠ n → random_mutations (2 ^ A) m n ≠ 0 →
        hammingDistance A m n = 1 := by
  constructor
  · have hC : rowSumRaw A (2 ^ A) 0 ≠ 0 := ne_of_gt (rowSumRaw_zero_pos A hA)
    calc (∑ n ∈ Finset.range (2 ^ A), random_mutations (2 ^ A) m n)
        = ∑ n ∈ Finset.range (2 ^ A),
            transRaw A m n / rowSumRaw A (2 ^ A) 0 := by
          apply Finset.sum_congr rfl
          intro n hn
          unfold random_mutations
          rw [log2_two_pow,
            rowSumRaw_eq_zero_row A A n (Finset.mem_range.1 hn)]
      _ = (∑ n ∈ Finset.range (2 ^ A), transRaw A m n) /
            rowSumRaw A (2 ^ A) 0 := (Finset.sum_div _ _ _).symm
      _ = rowSumRaw A (2 ^ A) m / rowSumRaw A (2 ^ A) 0 := rfl
      _ = rowSumRaw A (2 ^ A) 0 / rowSumRaw A (2 ^ A) 0 := by
          rw [rowSumRaw_eq_zero_row A A m hm]
      _ = 1 := div_self hC
  · intro n _ hne
    unfold random_mutations at hne
    rw [log2_two_pow] at hne
    have htr : transRaw A m n ≠ 0 := by
      intro h0
      rw [h0, zero_div] at hne
      exact hne rfl
    unfold transRaw at htr
    by_cases h1 : hammingDistance A m n > 1
    · rw [if_pos h1] at htr
      exact absurd rfl htr
    · rw [if_neg h1] at htr
      have : hammingDistance A m n ≠ 0 := by
        intro h0
        rw [h0] at htr
        exact htr (by norm_num)
      omega

/-- C2 witness: `random_mutations_row_stochastic_hamming` at A = 2, row 1. -/
theorem random_mutations_row_stochastic_hamming_witness :
    (∑ n ∈ Finset.range (2 ^ 2), random_mutations (2 ^ 2) 1 n) = 1 ∧
      ∀ n : ℕ, 1 ≠ n → random_mutations (2 ^ 2) 1 n ≠ 0 →
        hammingDistance 2 1 n = 1 :=
  random_mutations_row_stochastic_hamming 2 (by norm_num) 1 (by norm_num)

/-- C9: for a full genotype space of size 2 to the A, the matrix returned
by `random_mutations` is symmetric, so the destination distribution
`P[:, g]` that `abm` draws mutation targets from equals the row distribution
`P[g, :]` for every source genotype `g`. -/
theorem random_mutations_symmetric (A m n : ℕ) (hm : m < 2 ^ A)
    (hn : n < 2 ^ A) :
    random_mutations (2 ^ A) m n = random_mutations (2 ^ A) n m := by
  unfold random_mutations
  rw [log2_two_pow, transRaw_comm,
    rowSumRaw_eq_zero_row A A n hn, rowSumRaw_eq_zero_row A A m hm]

/-- C9 witness: `random_mutations_symmetric` at A = 2 for entries (1, 2). -/
theorem random_mutations_symmetric_witness :
    random_mutations (2 ^ 2) 1 2 = random_mutations (2 ^ 2) 2 1 :=
  random_mutations_symmetric 2 1 2 (by norm_num) (by norm_num)

end FearsMd
